import Mathlib

/-!
Verification of the immutable linguistic data model of the koalanlp
nodejs-support wrapper (src/src/data.ts, src/src/common.ts).

The TypeScript classes are shallowly embedded here.  JavaScript object
references are modelled as natural-number ids; mutable object state lives in
explicit stores (functions from ids to state records) that the embedded
constructors thread through.  Fallible constructors return Except values:
Except.error models a thrown TypeError.  Fields that JavaScript leaves
undefined are modelled with Option, where none stands for undefined.
-/

namespace NodejsSupport

/-! ## common.ts -/

/-- Embeds typeCheck (src/src/common.ts lines 20-35).  The source collects the
set of runtime type names of the supplied values and asserts each one belongs
to the allowed set; here the caller passes the list of runtime type names.
On an empty list of values no assertion runs, so the check passes vacuously. -/
def typeCheck (typeNames : List String) (allowed : List String) : Bool :=
  typeNames.all (fun t => allowed.contains t)

/-! ## writeonlyonce (src/src/data.ts lines 15-33)

The guarded setter stores a raw value that starts out undefined.  Setting
compares the new value with the raw stored value by strict equality
(reference identity for objects, modelled by equality of ids): an identical
re-assignment returns silently, a different assignment while a concrete value
is held throws a TypeError whose message carries the current value and the
rejected new value, and otherwise the new value is stored. -/

/-- One application of the setter installed by writeonlyonce.  The stored
state is Option-valued (none models raw undefined); an error carries the pair
(retained old value, rejected new value) reported in the thrown message. -/
def woSet {α : Type} [DecidableEq α] (stored : Option α) (newValue : α) :
    Except (α × α) (Option α) :=
  if stored = some newValue then Except.ok stored
  else
    match stored with
    | some old => Except.error (old, newValue)
    | none => Except.ok (some newValue)

/-! ## ImmutableArray search (src/src/data.ts lines 176-211) -/

/-- JavaScript Array.prototype.indexOf: first index holding the value under
strict equality, -1 when absent.  Elements are compared by id (===). -/
def jsIndexOf {α : Type} [DecidableEq α] (items : List α) (v : α) : Int :=
  match items.findIdx? (fun x => x = v) with
  | some n => (n : Int)
  | none => -1

/-- Embeds ImmutableArray.lastIndexOf (src/src/data.ts lines 197-199): the
body delegates to this._items.indexOf(value). -/
def lastIndexOf {α : Type} [DecidableEq α] (items : List α) (v : α) : Int :=
  jsIndexOf items v

/-- Modelled from the spec: the behaviour documented for lastIndexOf
(`indexOf`/`lastIndexOf` reference-equality search; the doc comment refers to
Array#lastIndexOf), namely the greatest index at which the value occurs, and
-1 when it does not occur. -/
def specLastIndexOf {α : Type} [DecidableEq α] (items : List α) (v : α) : Int :=
  match items.reverse.findIdx? (fun x => x = v) with
  | some n => (items.length : Int) - 1 - (n : Int)
  | none => -1

/-! ## POS tag predicates

The POS enumeration lives in src/src/types.ts, which is not part of the
sources provided; only its test (Type Tags / discriminate tags) and the spec
describe it.  The two predicates the Sentence word-class queries need are
modelled from those. -/

/-- Modelled from the spec: missing types.ts POS.isNoun.  The noun-category
tags, per the spec (noun-category; the unknown categories NA, NV, NF are not
part of the N category) and the type-tag test, are NNG, NNP, NNB, NNM, NR and
NP. -/
def posIsNoun (tag : String) : Bool :=
  ["NNG", "NNP", "NNB", "NNM", "NR", "NP"].contains tag

/-- Modelled from the spec: missing types.ts POS.startsWith.  Case-sensitive
prefix match of the canonical uppercase tag name against the uppercased
query, except that the unknown tags NF, NV, NA do not answer to the bare
query N. -/
def posStartsWith (tag : String) (pre : String) : Bool :=
  if pre.toUpper = "N" && ["NF", "NV", "NA"].contains tag then false
  else tag.startsWith pre.toUpper

/-- A Morpheme as the word-class queries see it: its surface form and the
canonical name of its POS tag (Morpheme stores the tag name in _tag). -/
structure Morph where
  surface : String
  tag : String
deriving DecidableEq

/-- Embeds Morpheme.isNoun (src/src/data.ts lines 1532-1534): delegates to
the tag-category predicate on the POS value. -/
def Morph.isNoun (m : Morph) : Bool :=
  posIsNoun m.tag

/-- Embeds Morpheme.hasTag (src/src/data.ts lines 1581-1583). -/
def Morph.hasTag (m : Morph) (pre : String) : Bool :=
  posStartsWith m.tag pre

/-- Embeds Morpheme.hasTagOneOf (src/src/data.ts lines 1606-1608). -/
def Morph.hasTagOneOf (m : Morph) (tags : List String) : Bool :=
  tags.any (fun t => m.hasTag t)

/-- A Word as the word-class queries see it: surface plus its ordered
morphemes. -/
structure WordM where
  surface : String
  morphs : List Morph
deriving DecidableEq

/-- Embeds ImmutableArray.findIndex backed by Array.prototype.findIndex:
first index satisfying the predicate, -1 when none does. -/
def findIdxJS {α : Type} (p : α → Bool) (l : List α) : Int :=
  match l.findIdx? p with
  | some n => (n : Int)
  | none => -1

/-- Embeds ImmutableArray.findLastIndex (src/src/data.ts lines 287-289,
lodash findLastIndex): last index satisfying the predicate, -1 when none
does. -/
def findLastIdxJS {α : Type} (p : α → Bool) (l : List α) : Int :=
  match l.reverse.findIdx? p with
  | some n => (l.length : Int) - 1 - (n : Int)
  | none => -1

/-- Inclusion predicate of Sentence.nouns (src/src/data.ts line 2606). -/
def nounInc (m : Morph) : Bool :=
  m.isNoun || m.hasTagOneOf ["ETN", "XSN"]

/-- Exclusion predicate of Sentence.nouns (src/src/data.ts line 2607). -/
def nounExc (m : Morph) : Bool :=
  m.hasTagOneOf ["XSV", "XSA", "XSM"]

/-- The per-word condition of Sentence.nouns (src/src/data.ts lines
2606-2611): the word is kept iff an inclusion index exists and exceeds the
last exclusion index. -/
def nounCond (w : WordM) : Bool :=
  let inclusion := findIdxJS nounInc w.morphs
  let exclusion := findLastIdxJS nounExc w.morphs
  inclusion != -1 && decide (exclusion < inclusion)

/-- Embeds the Sentence.nouns getter (src/src/data.ts lines 2603-2615) on a
sentence given as its word list. -/
def nounsOf (s : List WordM) : List WordM :=
  s.filter nounCond

/-- The claim-side reading of the noun rule: some morpheme satisfies the
inclusion predicate, and the earliest such index i is strictly greater than
every index carrying an exclusion morpheme (vacuously so when no exclusion
morpheme exists, matching the -1 sentinel). -/
def nounSpec (w : WordM) : Prop :=
  ∃ i : Nat, ∃ h : i < w.morphs.length,
    nounInc w.morphs[i] = true ∧
    (∀ j : Nat, ∀ hj : j < w.morphs.length, j < i →
      nounInc w.morphs[j] = false) ∧
    (∀ j : Nat, ∀ hj : j < w.morphs.length,
      nounExc w.morphs[j] = true → j < i)

/-! ## Tree.getTerminals (src/src/data.ts lines 630-720) -/

/-- A Word as the syntax tree sees it: its sentence-position id (the sort
key) and surface. -/
structure Wd where
  wid : Int
  surface : String
deriving DecidableEq

/-- The sort relation of getTerminals: the JS comparator (x, y) => x.id -
y.id orders words by ascending id. -/
def widLE (a b : Wd) : Prop :=
  a.wid ≤ b.wid

instance : DecidableRel widLE := fun a b => Int.decLe a.wid b.wid

instance : IsTotal Wd widLE :=
  ⟨fun a b => Int.le_total a.wid b.wid⟩

instance : IsTrans Wd widLE :=
  ⟨fun _ _ _ hab hbc => Int.le_trans hab hbc⟩

/-- A Tree node (src/src/data.ts class Tree): a label, an optional terminal
Word, and the child nodes held by the underlying ImmutableArray. -/
inductive JTree : Type where
  | mk (label : String) (terminal : Option Wd) (children : List JTree)

/-- The terminal of a node. -/
def JTree.terminal : JTree → Option Wd
  | .mk _ t _ => t

/-- The children of a node. -/
def JTree.children : JTree → List JTree
  | .mk _ _ cs => cs

mutual

/-- Embeds Tree.getTerminals (src/src/data.ts lines 713-720): concatenate the
recursive results over the children (the reduce/concat fold from the empty
array), push the own terminal if present, then sort by word id. -/
def getTerminals : JTree → List Wd
  | .mk _ term cs =>
    let leaves := childTerminals cs
    let leaves := match term with
      | some w => leaves ++ [w]
      | none => leaves
    List.insertionSort widLE leaves

/-- The reduce((acc, child) => acc.concat(child.getTerminals()), []) fold:
in-order concatenation of the recursive results. -/
def childTerminals : List JTree → List Wd
  | [] => []
  | c :: cs => getTerminals c ++ childTerminals cs

end

mutual

/-- The terminal Words reachable from a node: its own terminal plus those of
all descendants, in tree order (the reference multiset for getTerminals). -/
def allTerminals : JTree → List Wd
  | .mk _ term cs =>
    (match term with
      | some w => [w]
      | none => []) ++ allTerminalsList cs

/-- allTerminals over a forest. -/
def allTerminalsList : List JTree → List Wd
  | [] => []
  | c :: cs => allTerminals c ++ allTerminalsList cs

end

mutual

/-- The number of nodes of the subtree that carry a terminal Word. -/
def terminalCount : JTree → Nat
  | .mk _ term cs =>
    (match term with
      | some _ => 1
      | none => 0) + terminalCountList cs

/-- terminalCount over a forest. -/
def terminalCountList : List JTree → Nat
  | [] => 0
  | c :: cs => terminalCount c + terminalCountList cs

end

/-! ## Object stores

Mutable JavaScript objects are addressed by natural-number ids; upd is the
pointwise store update. -/

/-- Pointwise update of a store. -/
def upd {β : Type} (f : Nat → β) (k : Nat) (v : β) : Nat → β :=
  fun i => if i = k then v else f i

/-! ## DAGEdge / DepEdge / RoleEdge (src/src/data.ts lines 881-1319) -/

/-- The edge-related mutable state of a Word object: the write-once
governorEdge back-reference and the three append-only edge lists.  Edges are
addressed by id. -/
structure WordSt where
  governorEdge : Option Nat := none
  dependentEdges : List Nat := []
  argumentRoles : List Nat := []
  predicateRoles : List Nat := []
deriving DecidableEq

/-- Embeds the DepEdge constructor (src/src/data.ts lines 1015-1049) acting
on a store of Word objects; eid is the id of the edge being constructed.
The value object carries the documented keys governor/dependent/type/depType
and the optional src/dest/label keys of the declared parameter type.  The
source calls super(value) FIRST, so the DAGEdge checks and the _src/_dest
assignments see the src/dest/label keys as passed in; the later statements
value.src = value.governor etc. only mutate the plain value object and never
reach this._src/_dest.  Side effects (lines 1042-1048) then use this.dest
and this.src, i.e. the src/dest keys. -/
def depEdgeMake (st : Nat → WordSt) (eid : Nat)
    (governor dependent : Option Nat) (typ : Option String)
    (depType : Option String) (src dest : Option Nat)
    (label : Option String) : Except String (Nat → WordSt) :=
  -- super(value): DAGEdge constructor type checks (lines 903-905)
  match dest with
  | none => Except.error "TypeError: expected Word for value.dest"
  | some d =>
    -- typeCheck([value.type], 'string', 'PhraseTag') (line 1028)
    match typ with
    | none => Except.error "TypeError: expected string or PhraseTag for value.type"
    | some _ =>
      -- depType / originalLabel are optional; governor, dependent, label unused
      -- beyond this point for the object state
      let _ := governor
      let _ := dependent
      let _ := depType
      let _ := label
      -- this.dest.governorEdge = this (lines 1042-1044, write-once setter)
      match woSet (st d).governorEdge eid with
      | Except.error _ =>
        Except.error "TypeError: governorEdge may not be re-initialized"
      | Except.ok g =>
        let st1 := upd st d { st d with governorEdge := g }
        -- this.src.dependentEdges.push(this) (lines 1046-1048)
        match src with
        | some s =>
          Except.ok (upd st1 s
            { st1 s with dependentEdges := (st1 s).dependentEdges ++ [eid] })
        | none => Except.ok st1

/-- Embeds the RoleEdge constructor (src/src/data.ts lines 1199-1232) acting
on a store of Word objects.  Unlike DepEdge, the checks and the
value.src/value.dest assignments run BEFORE super, so src is the predicate
and dest is the argument.  Order of checks: label must be a string or
RoleType (line 1208), modifiers are element-type-checked (line 1212), the
predicate is asserted to be defined (lines 1214-1215), and the DAGEdge super
constructor requires dest, i.e. the argument (line 904).  Side effects: the
edge is appended to dest.predicateRoles and, when src is present, to
src.argumentRoles (lines 1225-1231). -/
def roleEdgeMake (st : Nat → WordSt) (eid : Nat)
    (predicate argument : Option Nat) (label : Option String)
    (modifiers : List Nat) : Except String (Nat → WordSt) :=
  match label with
  | none => Except.error "TypeError: expected string or RoleType for value.label"
  | some _ =>
    if !(typeCheck (modifiers.map fun _ => "Word") ["Word"]) then
      Except.error "TypeError: expected Word for modifiers"
    else
      match predicate with
      | none => Except.error "TypeError: value.predicate must not be undefined"
      | some s =>
        match argument with
        | none => Except.error "TypeError: expected Word for value.dest"
        | some d =>
          let st1 := upd st d
            { st d with predicateRoles := (st d).predicateRoles ++ [eid] }
          Except.ok (upd st1 s
            { st1 s with argumentRoles := (st1 s).argumentRoles ++ [eid] })

/-! ## Word constructor morpheme wiring (src/src/data.ts lines 1829-1847) -/

/-- The write-once back-reference state of a Morpheme object as the Word
constructor touches it: the raw stored values behind the id and word
accessors installed by writeonlyonce (none models the initial undefined). -/
structure MorphWSt where
  idVal : Option Int := none
  wordVal : Option Nat := none
deriving DecidableEq

/-- The constructor loop for (const [i, morph] of this.entries()) (lines
1843-1846): assigns morph.word = this, then morph.id = i, both through the
write-once setters. -/
def assignMorphs (st : Nat → MorphWSt) (wref : Nat) :
    List Nat → Nat → Except String (Nat → MorphWSt)
  | [], _ => Except.ok st
  | m :: rest, i =>
    match woSet (st m).wordVal wref with
    | Except.error _ => Except.error "TypeError: word may not be re-initialized"
    | Except.ok wv =>
      let st1 := upd st m { st m with wordVal := wv }
      match woSet (st1 m).idVal (i : Int) with
      | Except.error _ => Except.error "TypeError: id may not be re-initialized"
      | Except.ok iv =>
        assignMorphs (upd st1 m { st1 m with idVal := iv }) wref rest (i + 1)

/-- Embeds the Word constructor (src/src/data.ts lines 1829-1847) restricted
to its observable effect on the morphemes: the element type check of the
super call, then the id/word wiring loop starting at index 0. -/
def wordNew (st : Nat → MorphWSt) (wref : Nat) (surface : String)
    (morphRefs : List Nat) : Except String (Nat → MorphWSt) :=
  if !(typeCheck (morphRefs.map fun _ => "Morpheme") ["Morpheme"]) then
    Except.error "TypeError: expected Morpheme"
  else
    let _ := surface
    assignMorphs st wref morphRefs 0

/-! ## Morpheme.wordSense (src/src/data.ts lines 1343-1419)

The Morpheme constructor installs write-once guards with
writeonlyonce(this, undefined, 'word', 'wordsense') (line 1409).  The
property key 'wordsense' is all lowercase, while the declared field and
every read/write site use the camel-cased name wordSense (lines 1351-1361,
1417, 1489-1491).  JavaScript property keys are case-sensitive, so the
guard protects a dead key and this.wordSense remains a plain data property
that can be overwritten freely. -/

/-- A Morpheme object as compiled: wordSense is a plain data property; the
write-once accessor pair installed under the misspelled key wordsense is
never read or written by any other code. -/
structure MorphemeWS where
  surface : String
  tag : String
  wordSense : Option Int := none
deriving DecidableEq

/-- Assignment this.wordSense = v as the code actually behaves: a plain
property write that always succeeds and overwrites the stored value (the
writeonlyonce guard sits under the different key wordsense). -/
def setWordSense (m : MorphemeWS) (v : Int) : Except (Int × Int) MorphemeWS :=
  Except.ok { m with wordSense := some v }

/-! ## Entity construction and coreference reconstruction
(src/src/data.ts lines 438-461, 604-615, 1903-1913, 2400-2410) -/

/-- The value content of an Entity object: what its equals method compares
and its constructor stores (surface, label name, fine label, morpheme
references). -/
structure EData where
  surface : String
  label : String
  fineLabel : String
  morphs : List Nat
deriving DecidableEq, Inhabited

/-- A native (bridged) entity as the reconstruction reads it: surface,
label name, fine label, and the positions of its morphemes resolved to the
sentence-wide morpheme ids. -/
structure NEntity where
  surface : String
  label : String
  fineLabel : String
  morphs : List Nat
deriving DecidableEq

/-- The Entity value built from a native entity. -/
def NEntity.data (ne : NEntity) : EData :=
  ⟨ne.surface, ne.label, ne.fineLabel, ne.morphs⟩

/-- The reconstruction-relevant mutable state: each morpheme's entities
array (entity ids in push order), the allocated Entity objects, each
entity's write-once corefGroup back-reference, and the allocation counter
(ids below next are allocated). -/
structure ReconSt where
  ms : Nat → List Nat
  store : Nat → EData
  cg : Nat → Option Nat
  next : Nat

/-- The initial state: every morpheme starts with an empty entities array
(Morpheme field initializer, line 1386) and nothing is allocated. -/
def recon0 : ReconSt :=
  ⟨fun _ => [], fun _ => default, fun _ => none, 0⟩

/-- The loop for (const morph of this) morph.entities.push(this) of the
Entity constructor (lines 458-460): appends the entity id to each contained
morpheme's entities array, one push per occurrence. -/
def pushAll (eid : Nat) : (Nat → List Nat) → List Nat → (Nat → List Nat)
  | ms, [] => ms
  | ms, m :: rest => pushAll eid (upd ms m (ms m ++ [eid])) rest

/-- Embeds the Entity constructor (src/src/data.ts lines 438-461): the
super call element-type-checks the morpheme list (vacuously passing on an
empty list), the scalar fields are type-checked, the fields are stored, and
the entity pushes itself onto every contained morpheme's entities array.
Returns the updated state and the id of the new Entity object. -/
def entityMake (σ : ReconSt) (ne : NEntity) : Except String (ReconSt × Nat) :=
  if !(typeCheck (ne.morphs.map fun _ => "Morpheme") ["Morpheme"]) then
    Except.error "TypeError: expected Morpheme"
  else
    let eid := σ.next
    Except.ok
      ({ ms := pushAll eid σ.ms ne.morphs,
         store := upd σ.store eid ne.data,
         cg := σ.cg,
         next := eid + 1 }, eid)

/-- Step 3 of Sentence reconstruction for entities (line 2302): build an
Entity from every native entity in order, collecting the created ids. -/
def entitiesPass (σ : ReconSt) :
    List NEntity → Except String (ReconSt × List Nat)
  | [] => Except.ok (σ, [])
  | ne :: rest =>
    match entityMake σ ne with
    | Except.error e => Except.error e
    | Except.ok (σ1, eid) =>
      match entitiesPass σ1 rest with
      | Except.error e => Except.error e
      | Except.ok (σ2, ids) => Except.ok (σ2, eid :: ids)

/-- Morpheme.equals (lines 1650-1652) on the immutable morpheme data:
same surface and same tag name. -/
def morphEq (mdata : Nat → Morph) (a b : Nat) : Bool :=
  (mdata a).surface = (mdata b).surface && (mdata a).tag = (mdata b).tag

/-- Entity.equals (lines 566-570): same label, same fine label, and
ImmutableArray.equals of the morphemes (same length, pairwise
Morpheme.equals). -/
def entityEq (mdata : Nat → Morph) (x y : EData) : Bool :=
  x.label = y.label && x.fineLabel = y.fineLabel &&
  x.morphs.length = y.morphs.length &&
  (x.morphs.zip y.morphs).all (fun p => morphEq mdata p.1 p.2)

/-- One entry of _getCorefGroup (lines 2402-2405): build a throwaway Entity
from the native coreference member (side-effecting every covered morpheme's
entities array), then look up the first value-equal Entity among the
sentence's reconstructed entities.  The source collects an undefined marker
on a failed lookup and only throws in the CoreferenceGroup constructor's
element type check; on success the behaviour is identical, and this
embedding surfaces that failure at the entry. -/
def corefEntry (mdata : Nat → Morph) (builtIds : List Nat) (σ : ReconSt)
    (ne : NEntity) : Except String (ReconSt × Nat) :=
  match entityMake σ ne with
  | Except.error e => Except.error e
  | Except.ok (σ1, t) =>
    match builtIds.find? (fun b => entityEq mdata (σ1.store b) (σ1.store t)) with
    | some b => Except.ok (σ1, b)
    | none => Except.error "TypeError: expected Entity"

/-- The member-gathering fold of _getCorefGroup over one native group. -/
def corefMembers (mdata : Nat → Morph) (builtIds : List Nat) (σ : ReconSt) :
    List NEntity → Except String (ReconSt × List Nat)
  | [] => Except.ok (σ, [])
  | ne :: rest =>
    match corefEntry mdata builtIds σ ne with
    | Except.error e => Except.error e
    | Except.ok (σ1, b) =>
      match corefMembers mdata builtIds σ1 rest with
      | Except.error e => Except.error e
      | Except.ok (σ2, bs) => Except.ok (σ2, b :: bs)

/-- The CoreferenceGroup constructor loop (lines 612-614): sets every member
entity's corefGroup back-reference to the group gid through the write-once
setter. -/
def setCorefGroups (gid : Nat) (σ : ReconSt) :
    List Nat → Except String ReconSt
  | [] => Except.ok σ
  | e :: rest =>
    match woSet (σ.cg e) gid with
    | Except.error _ =>
      Except.error "TypeError: corefGroup may not be re-initialized"
    | Except.ok v =>
      setCorefGroups gid { σ with cg := upd σ.cg e v } rest

/-- Step 4 of Sentence reconstruction (line 2303): rebuild each coreference
group via _getCorefGroup; groups are numbered by position. -/
def corefPass (mdata : Nat → Morph) (builtIds : List Nat) (σ : ReconSt)
    (gid : Nat) : List (List NEntity) → Except String ReconSt
  | [] => Except.ok σ
  | g :: rest =>
    match corefMembers mdata builtIds σ g with
    | Except.error e => Except.error e
    | Except.ok (σ1, members) =>
      match setCorefGroups gid σ1 members with
      | Except.error e => Except.error e
      | Except.ok σ2 => corefPass mdata builtIds σ2 (gid + 1) rest

/-- The entity/coreference slice of the Sentence reconstruction constructor
(lines 2302-2303): the entities pass followed by the coreference pass,
starting from fresh morphemes. -/
def reconstructEC (mdata : Nat → Morph) (nents : List NEntity)
    (groups : List (List NEntity)) : Except String ReconSt :=
  match entitiesPass recon0 nents with
  | Except.error e => Except.error e
  | Except.ok (σ1, builtIds) => corefPass mdata builtIds σ1 0 groups

/-- Embeds the Word.entities getter (src/src/data.ts lines 1903-1913): walk
the word's morphemes in order, append each entity reference not yet present
(de-duplication by reference identity, i.e. by id). -/
def wordEntities (ms : Nat → List Nat) (wmorphs : List Nat) : List Nat :=
  wmorphs.foldl
    (fun acc m => (ms m).foldl
      (fun res e => if res.contains e then res else res ++ [e]) acc)
    []

/-- Extract the ok value of an Except, with a fallback. -/
def exceptGetD {ε α : Type} (e : Except ε α) (d : α) : α :=
  match e with
  | Except.ok x => x
  | Except.error _ => d

/-- State evolution invariant of the reconstruction passes: the allocation
counter never decreases, morpheme entities arrays only grow, and already
allocated Entity objects are never modified. -/
def Extends (σ σ2 : ReconSt) : Prop :=
  σ.next ≤ σ2.next ∧
  (∀ m e, e ∈ σ.ms m → e ∈ σ2.ms m) ∧
  (∀ e, e < σ.next → σ2.store e = σ.store e)

/-! # Helper lemmas -/

theorem upd_same {β : Type} (f : Nat → β) (k : Nat) (v : β) :
    upd f k v k = v := by
  simp [upd]

theorem upd_ne {β : Type} (f : Nat → β) (k i : Nat) (v : β) (h : i ≠ k) :
    upd f k v i = f i := by
  simp [upd, h]

theorem woSet_ok {α : Type} [DecidableEq α] {stored : Option α} {v : α}
    {g : Option α} (h : woSet stored v = Except.ok g) : g = some v := by
  unfold woSet at h
  by_cases hs : stored = some v
  · rw [if_pos hs] at h
    cases h
    exact hs
  · rw [if_neg hs] at h
    cases stored with
    | some old => cases h
    | none => cases h; rfl

theorem typeCheck_const (l : List Nat) (s : String) :
    typeCheck (l.map fun _ => s) [s] = true := by
  simp [typeCheck, List.all_eq_true]

/-! # Claim theorems -/

/-- Claim C2: the setter installed by writeonlyonce rejects a second
assignment of a different value with an error carrying the retained old
value and the rejected new value, while a second assignment of the identical
value is a silent no-op leaving the field unchanged.  This single setter
(woSet) is what writeonlyonce installs on Word.phrase and Word.governorEdge
(data.ts line 1838), Tree.parent (line 659), Entity.corefGroup (line 451)
and Morpheme.word (line 1409). -/
theorem writeonce_field_second_assignment (α : Type) [DecidableEq α]
    (w v : α) :
    (v ≠ w → woSet (some w) v = Except.error (w, v)) ∧
    woSet (some w) w = Except.ok (some w) := by
  constructor
  · intro h
    unfold woSet
    rw [if_neg]
    intro hc
    exact h (Option.some.injEq w v ▸ hc).symm
  · unfold woSet
    rw [if_pos rfl]

/-- Witness for C2 at a concrete field value. -/
theorem writeonce_field_second_assignment_witness :
    ((7 : Nat) ≠ 5 ∧ woSet (some 5) (7 : Nat) = Except.error (5, 7)) ∧
    woSet (some 5) (5 : Nat) = Except.ok (some 5) :=
  ⟨⟨by decide, (writeonce_field_second_assignment Nat 5 7).1 (by decide)⟩,
    (writeonce_field_second_assignment Nat 5 5).2⟩

/-- Claim C7 (code bug): wordSense is not write-once.  The write-once guard
was installed under the misspelled key wordsense (data.ts line 1409), so
this.wordSense stays a plain data property: assigning it twice silently
overwrites the stored value and never throws, while the writeonlyonce setter
the spec describes would have raised the violation. -/
theorem wordSense_second_assignment_overwrites_silently :
    (setWordSense ⟨"eat", "VV", none⟩ 3).bind (fun m1 => setWordSense m1 4) =
      Except.ok ⟨"eat", "VV", some 4⟩ ∧
    woSet (some (3 : Int)) 4 = Except.error (3, 4) :=
  ⟨rfl, rfl⟩

/-- Claim C8 (code bug): ImmutableArray.lastIndexOf delegates to indexOf
(data.ts line 198), so on [a, b, a] it returns the first index 0 instead of
the greatest index 2 that its own documentation (Array#lastIndexOf)
promises. -/
theorem lastIndexOf_returns_first_occurrence :
    lastIndexOf [10, 20, 10] (10 : Nat) = 0 ∧
    specLastIndexOf [10, 20, 10] (10 : Nat) = 2 ∧
    lastIndexOf [10, 20, 10] (10 : Nat) ≠
      specLastIndexOf [10, 20, 10] (10 : Nat) :=
  ⟨by decide, by decide, by decide⟩

/-- Counterexample to claim C9 as stated: constructing an Entity with an
empty morpheme list does not throw. -/
theorem entity_empty_morphemes_succeeds :
    (entityMake recon0 ⟨"개체", "PS", "PS_OTHER", []⟩).isOk = true :=
  rfl

/-- Claim C9 amended: Entity construction with an empty morpheme list
succeeds for every surface/label/fineLabel (the element type check of
typeCheck is vacuous on an empty list and non-emptiness is never enforced),
producing an Entity of length 0 and pushing onto no morpheme. -/
theorem entity_empty_morphemes_yields_length_zero (σ : ReconSt)
    (s l f : String) :
    ∃ σ2, entityMake σ ⟨s, l, f, []⟩ = Except.ok (σ2, σ.next) ∧
      (σ2.store σ.next).morphs.length = 0 ∧
      σ2.ms = σ.ms ∧ σ2.next = σ.next + 1 := by
  refine ⟨⟨σ.ms, upd σ.store σ.next ⟨s, l, f, []⟩, σ.cg, σ.next + 1⟩,
    rfl, ?_, rfl, rfl⟩
  show (upd σ.store σ.next ⟨s, l, f, []⟩ σ.next).morphs.length = 0
  rw [upd_same]
  rfl

/-- Counterexample to claim C1 as stated: a RoleEdge construction call with
a defined argument but an undefined predicate throws (the constructor
asserts the predicate is defined, data.ts lines 1214-1215) instead of
succeeding. -/
theorem roleEdge_defined_argument_missing_predicate_throws :
    (roleEdgeMake (fun _ => {}) 0 none (some 1) (some "ARG0") []).isOk
      = false :=
  rfl

/-- Claim C1 amended: RoleEdge construction (with a well-typed label)
succeeds if and only if BOTH endpoints are present — an undefined argument
fails the DAGEdge dest type check, and an undefined predicate fails the
constructor assertion; the predicate may not legitimately be absent. -/
theorem roleEdge_construction_ok_iff_both_endpoints (st : Nat → WordSt)
    (eid : Nat) (p a : Option Nat) (lbl : String) (mods : List Nat) :
    (roleEdgeMake st eid p a (some lbl) mods).isOk = true ↔
      (p.isSome = true ∧ a.isSome = true) := by
  unfold roleEdgeMake
  rw [typeCheck_const mods "Word"]
  cases p with
  | none => simp [Except.isOk, Except.toBool]
  | some s =>
    cases a with
    | none => simp [Except.isOk, Except.toBool]
    | some d => simp [Except.isOk, Except.toBool]

/-- Claim C3: every successfully constructed DepEdge is registered as its
dest word's governorEdge and, when src is present, appears in the src
word's dependentEdges; every successfully constructed RoleEdge appears in
its dest (argument) word's predicateRoles and, when src (predicate) is
present, in the src word's argumentRoles. -/
theorem edge_construction_registers_on_endpoints :
    (∀ (st : Nat → WordSt) (eid : Nat) (gov dep : Option Nat)
      (typ dt : Option String) (src dest : Option Nat) (lbl : Option String)
      (st' : Nat → WordSt),
      depEdgeMake st eid gov dep typ dt src dest lbl = Except.ok st' →
      ∃ d, dest = some d ∧ (st' d).governorEdge = some eid ∧
        ∀ s, src = some s → eid ∈ (st' s).dependentEdges) ∧
    (∀ (st : Nat → WordSt) (eid : Nat) (p a : Option Nat)
      (lbl : Option String) (mods : List Nat) (st' : Nat → WordSt),
      roleEdgeMake st eid p a lbl mods = Except.ok st' →
      ∃ d, a = some d ∧ eid ∈ (st' d).predicateRoles ∧
        ∀ s, p = some s → eid ∈ (st' s).argumentRoles) := by
  constructor
  · intro st eid gov dep typ dt src dest lbl st' h
    unfold depEdgeMake at h
    cases dest with
    | none => cases h
    | some d =>
      cases typ with
      | none => cases h
      | some tv =>
        simp only at h
        cases hw : woSet (st d).governorEdge eid with
        | error e => rw [hw] at h; cases h
        | ok g =>
          rw [hw] at h
          have hg : g = some eid := woSet_ok hw
          cases src with
          | none =>
            cases h
            refine ⟨d, rfl, ?_, ?_⟩
            · rw [upd_same, hg]
            · intro s hs; cases hs
          | some s =>
            cases h
            refine ⟨d, rfl, ?_, ?_⟩
            · by_cases hds : d = s
              · subst hds
                rw [upd_same]
                simp only [upd_same, hg]
              · rw [upd_ne _ _ _ _ hds, upd_same, hg]
            · intro s' hs'
              cases hs'
              rw [upd_same]
              simp
  · intro st eid p a lbl mods st' h
    unfold roleEdgeMake at h
    cases lbl with
    | none => cases h
    | some lv =>
      rw [typeCheck_const mods "Word"] at h
      simp only [Bool.not_true, Bool.false_eq_true, if_false] at h
      cases p with
      | none => cases h
      | some s =>
        cases a with
        | none => cases h
        | some d =>
          cases h
          refine ⟨d, rfl, ?_, ?_⟩
          · by_cases hds : d = s
            · subst hds
              rw [upd_same]
              simp only [upd_same]
              simp
            · rw [upd_ne _ _ _ _ hds, upd_same]
              simp
          · intro s' hs'
            cases hs'
            rw [upd_same]
            simp

/-- Witness for C3: a DepEdge and a RoleEdge built between concrete words. -/
theorem edge_construction_registers_on_endpoints_witness :
    (∃ d, (some 2 : Option Nat) = some d ∧
      (exceptGetD
        (depEdgeMake (fun _ => {}) 7 (some 1) (some 2) (some "NP") none
          (some 1) (some 2) none) (fun _ => {}) d).governorEdge = some 7 ∧
      ∀ s, (some 1 : Option Nat) = some s →
        7 ∈ (exceptGetD
          (depEdgeMake (fun _ => {}) 7 (some 1) (some 2) (some "NP") none
            (some 1) (some 2) none) (fun _ => {}) s).dependentEdges) ∧
    (∃ d, (some 4 : Option Nat) = some d ∧
      8 ∈ (exceptGetD
        (roleEdgeMake (fun _ => {}) 8 (some 3) (some 4) (some "ARG0") [])
        (fun _ => {}) d).predicateRoles ∧
      ∀ s, (some 3 : Option Nat) = some s →
        8 ∈ (exceptGetD
          (roleEdgeMake (fun _ => {}) 8 (some 3) (some 4) (some "ARG0") [])
          (fun _ => {}) s).argumentRoles) :=
  ⟨edge_construction_registers_on_endpoints.1 (fun _ => {}) 7 (some 1)
      (some 2) (some "NP") none (some 1) (some 2) none _ rfl,
    edge_construction_registers_on_endpoints.2 (fun _ => {}) 8 (some 3)
      (some 4) (some "ARG0") [] _ rfl⟩

/-- A woSet step from the undefined state stores the new value. -/
theorem woSet_none {α : Type} [DecidableEq α] (v : α) :
    woSet (none : Option α) v = Except.ok (some v) := by
  simp [woSet]

/-- The id/word wiring loop of the Word constructor, generalized over the
start index: on pairwise-distinct, unassigned morphemes it succeeds, gives
the morpheme at offset i the id k + i and the word back-reference, and
leaves every other morpheme untouched. -/
theorem assignMorphs_spec (wref : Nat) (l : List Nat) :
    ∀ (st : Nat → MorphWSt) (k : Nat),
      (∀ m ∈ l, st m = ⟨none, none⟩) → l.Nodup →
      ∃ st', assignMorphs st wref l k = Except.ok st' ∧
        (∀ i : Nat, ∀ h : i < l.length,
          st' (l.get ⟨i, h⟩) = ⟨some ((k + i : Nat) : Int), some wref⟩) ∧
        (∀ m, m ∉ l → st' m = st m) := by
  induction l with
  | nil =>
    intro st k _ _
    exact ⟨st, rfl, fun i h => absurd h (Nat.not_lt_zero i), fun _ _ => rfl⟩
  | cons m0 rest ih =>
    intro st k hinit hnd
    have h0 : st m0 = ⟨none, none⟩ := hinit m0 (List.mem_cons_self _ _)
    have hm0 : m0 ∉ rest := (List.nodup_cons.mp hnd).1
    have hndr : rest.Nodup := (List.nodup_cons.mp hnd).2
    -- the state after the two write-once assignments on m0
    set st2 : Nat → MorphWSt :=
      upd (upd st m0 ⟨none, some wref⟩) m0 ⟨some (k : Int), some wref⟩ with hst2
    have hrest : ∀ m ∈ rest, st2 m = ⟨none, none⟩ := by
      intro m hm
      have hne : m ≠ m0 := fun hc => hm0 (hc ▸ hm)
      rw [hst2, upd_ne _ _ _ _ hne, upd_ne _ _ _ _ hne]
      exact hinit m (List.mem_cons_of_mem _ hm)
    obtain ⟨st', heq, hpos, hout⟩ := ih st2 (k + 1) hrest hndr
    refine ⟨st', ?_, ?_, ?_⟩
    · show assignMorphs st wref (m0 :: rest) k = Except.ok st'
      unfold assignMorphs
      rw [h0]
      simp only [woSet_none, upd_same]
      exact heq
    · intro i h
      match i with
      | 0 =>
        have : st' m0 = st2 m0 := hout m0 hm0
        rw [show (m0 :: rest).get ⟨0, h⟩ = m0 from rfl, this, hst2, upd_same]
        simp
      | Nat.succ j =>
        have hj : j < rest.length := Nat.lt_of_succ_lt_succ h
        have := hpos j hj
        rw [show (m0 :: rest).get ⟨j + 1, h⟩ = rest.get ⟨j, hj⟩ from rfl, this]
        congr 2
        omega
    · intro m hm
      have hne : m ≠ m0 := fun hc => hm (hc ▸ List.mem_cons_self _ _)
      have hnr : m ∉ rest := fun hc => hm (List.mem_cons_of_mem _ hc)
      rw [hout m hnr, hst2, upd_ne _ _ _ _ hne, upd_ne _ _ _ _ hne]

/-- Claim C5: the Word constructor, applied to previously unassigned,
pairwise-distinct morphemes, succeeds and gives morphemes[i] the positional
id i and the word back-reference (data.ts lines 1843-1846). -/
theorem word_constructor_assigns_positional_ids (st : Nat → MorphWSt)
    (wref : Nat) (surface : String) (morphRefs : List Nat)
    (hinit : ∀ m ∈ morphRefs, st m = ⟨none, none⟩)
    (hnd : morphRefs.Nodup) :
    ∃ st', wordNew st wref surface morphRefs = Except.ok st' ∧
      ∀ i : Nat, ∀ h : i < morphRefs.length,
        st' (morphRefs.get ⟨i, h⟩) = ⟨some (i : Int), some wref⟩ := by
  obtain ⟨st', heq, hpos, _⟩ := assignMorphs_spec wref morphRefs st 0 hinit hnd
  refine ⟨st', ?_, ?_⟩
  · unfold wordNew
    rw [typeCheck_const morphRefs "Morpheme"]
    simpa using heq
  · intro i h
    have := hpos i h
    simpa using this

/-- Witness for C5: a two-morpheme word. -/
theorem word_constructor_assigns_positional_ids_witness :
    ∃ st', wordNew (fun _ => ⟨none, none⟩) 9 "나는" [3, 5] = Except.ok st' ∧
      ∀ i : Nat, ∀ h : i < ([3, 5] : List Nat).length,
        st' (([3, 5] : List Nat).get ⟨i, h⟩) = ⟨some (i : Int), some 9⟩ :=
  word_constructor_assigns_positional_ids (fun _ => ⟨none, none⟩) 9 "나는"
    [3, 5] (fun _ _ => rfl) (by decide)

mutual

/-- getTerminals collects exactly the reachable terminals, up to order. -/
theorem getTerminals_perm : ∀ t : JTree,
    (getTerminals t).Perm (allTerminals t)
  | .mk lb term cs => by
    have hc := childTerminals_perm cs
    unfold getTerminals allTerminals
    cases term with
    | none =>
      simpa using (List.perm_insertionSort widLE _).trans hc
    | some w =>
      exact (List.perm_insertionSort widLE _).trans
        (List.perm_append_comm.trans (hc.append_left [w]))

/-- childTerminals collects exactly the forest terminals, up to order. -/
theorem childTerminals_perm : ∀ cs : List JTree,
    (childTerminals cs).Perm (allTerminalsList cs)
  | [] => List.Perm.refl []
  | c :: cs => by
    unfold childTerminals allTerminalsList
    exact (getTerminals_perm c).append (childTerminals_perm cs)

end

mutual

/-- The number of reachable terminals equals the terminal-carrying node
count. -/
theorem allTerminals_length : ∀ t : JTree,
    (allTerminals t).length = terminalCount t
  | .mk lb term cs => by
    unfold allTerminals terminalCount
    cases term with
    | none => simpa using allTerminalsList_length cs
    | some w =>
      simp only [List.length_append, List.length_cons, List.length_nil]
      rw [allTerminalsList_length cs]

/-- Forest version of allTerminals_length. -/
theorem allTerminalsList_length : ∀ cs : List JTree,
    (allTerminalsList cs).length = terminalCountList cs
  | [] => rfl
  | c :: cs => by
    unfold allTerminalsList terminalCountList
    rw [List.length_append, allTerminals_length c, allTerminalsList_length cs]

end

/-- getTerminals always returns a list sorted (weakly) by word id. -/
theorem getTerminals_sorted (t : JTree) :
    List.Sorted widLE (getTerminals t) := by
  cases t with
  | mk lb term cs =>
    unfold getTerminals
    cases term with
    | none => exact List.sorted_insertionSort widLE _
    | some w => exact List.sorted_insertionSort widLE _

/-- Claim C4: for a tree whose reachable terminal Words carry pairwise
distinct ids, getTerminals returns exactly the reachable terminals (own
terminal plus those of all descendants, as a permutation), strictly
ascending by word id, with length equal to the number of terminal-carrying
nodes — regardless of tree shape. -/
theorem getTerminals_exact_sorted_count (t : JTree)
    (h : ((allTerminals t).map Wd.wid).Nodup) :
    (getTerminals t).Perm (allTerminals t) ∧
    List.Pairwise (fun a b : Wd => a.wid < b.wid) (getTerminals t) ∧
    (getTerminals t).length = terminalCount t := by
  have hperm := getTerminals_perm t
  refine ⟨hperm, ?_, hperm.length_eq.trans (allTerminals_length t)⟩
  have hs : List.Sorted widLE (getTerminals t) := getTerminals_sorted t
  have hmap : ((getTerminals t).map Wd.wid).Nodup :=
    ((hperm.map Wd.wid).nodup_iff).mpr h
  have hne : List.Pairwise (fun a b : Wd => a.wid ≠ b.wid) (getTerminals t) :=
    List.pairwise_map.mp hmap
  exact (hs.and hne).imp fun hab => lt_of_le_of_ne hab.1 hab.2

/-- Witness for C4: a three-node tree whose terminals arrive unsorted. -/
theorem getTerminals_exact_sorted_count_witness :
    ((allTerminals (JTree.mk "S" none
        [JTree.mk "NP" (some ⟨1, "b"⟩) [],
          JTree.mk "VP" (some ⟨0, "a"⟩) []])).map Wd.wid).Nodup ∧
    ((getTerminals (JTree.mk "S" none
        [JTree.mk "NP" (some ⟨1, "b"⟩) [],
          JTree.mk "VP" (some ⟨0, "a"⟩) []])).Perm
      (allTerminals (JTree.mk "S" none
        [JTree.mk "NP" (some ⟨1, "b"⟩) [],
          JTree.mk "VP" (some ⟨0, "a"⟩) []])) ∧
    List.Pairwise (fun a b : Wd => a.wid < b.wid)
      (getTerminals (JTree.mk "S" none
        [JTree.mk "NP" (some ⟨1, "b"⟩) [],
          JTree.mk "VP" (some ⟨0, "a"⟩) []])) ∧
    (getTerminals (JTree.mk "S" none
        [JTree.mk "NP" (some ⟨1, "b"⟩) [],
          JTree.mk "VP" (some ⟨0, "a"⟩) []])).length
      = terminalCount (JTree.mk "S" none
        [JTree.mk "NP" (some ⟨1, "b"⟩) [],
          JTree.mk "VP" (some ⟨0, "a"⟩) []])) :=
  ⟨by decide,
    getTerminals_exact_sorted_count
      (JTree.mk "S" none
        [JTree.mk "NP" (some ⟨1, "b"⟩) [],
          JTree.mk "VP" (some ⟨0, "a"⟩) []])
      (by decide)⟩

/-- A reverse findIdx? finds nothing iff the predicate holds nowhere. -/
theorem findLast_none_iff {α : Type} (q : α → Bool) (l : List α) :
    l.reverse.findIdx? q = none ↔ ∀ x ∈ l, q x = false := by
  rw [List.findIdx?_eq_none_iff]
  constructor
  · intro h x hx
    exact h x (List.mem_reverse.mpr hx)
  · intro h x hx
    exact h x (List.mem_reverse.mp hx)

/-- A successful reverse findIdx? names the LAST index satisfying the
predicate: the predicate holds there and fails at every later index. -/
theorem findLast_some_spec {α : Type} {q : α → Bool} {l : List α} {k : Nat}
    (h : l.reverse.findIdx? q = some k) :
    k < l.length ∧
    ∃ hk : l.length - 1 - k < l.length,
      q l[l.length - 1 - k] = true ∧
      ∀ m : Nat, ∀ hm : m < l.length, l.length - 1 - k < m →
        q l[m] = false := by
  obtain ⟨hk1, hk2⟩ := List.findIdx?_eq_some_iff_findIdx_eq.mp h
  rw [List.length_reverse] at hk1
  obtain ⟨hq, hbef⟩ :=
    (List.findIdx_eq (by rw [List.length_reverse]; exact hk1)).mp hk2
  rw [List.getElem_reverse] at hq
  refine ⟨hk1, by omega, hq, ?_⟩
  intro m hm hgt
  have hj : l.length - 1 - m < k := by omega
  have hrev := hbef (l.length - 1 - m) hj
  rw [List.getElem_reverse] at hrev
  have hmm : l.length - 1 - (l.length - 1 - m) = m := by omega
  simp only [hmm] at hrev
  exact hrev

/-- The word-level condition computed by Sentence.nouns agrees with the
claim-side earliest-inclusion / latest-exclusion reading. -/
theorem nounCond_iff (w : WordM) : nounCond w = true ↔ nounSpec w := by
  unfold nounCond findIdxJS findLastIdxJS
  cases hI : w.morphs.findIdx? nounInc with
  | none =>
    simp only [hI]
    constructor
    · intro h
      simp at h
    · intro ⟨i, hi, hinc, _, _⟩
      have := List.findIdx?_eq_none_iff.mp hI w.morphs[i]
        (List.getElem_mem hi)
      rw [this] at hinc
      cases hinc
  | some n =>
    obtain ⟨hn, hfind⟩ := List.findIdx?_eq_some_iff_findIdx_eq.mp hI
    obtain ⟨hpn, hbefore⟩ := (List.findIdx_eq hn).mp hfind
    simp only [hI]
    cases hE : w.morphs.reverse.findIdx? nounExc with
    | none =>
      simp only [hE]
      have hnone := (findLast_none_iff nounExc w.morphs).mp hE
      constructor
      · intro _
        refine ⟨n, hn, hpn, ?_, ?_⟩
        · intro j hj hlt
          exact hbefore j hlt
        · intro j hj hq
          rw [hnone w.morphs[j] (List.getElem_mem hj)] at hq
          cases hq
      · intro _
        simp only [Bool.and_eq_true, bne_iff_ne, ne_eq, decide_eq_true_eq]
        constructor
        · omega
        · omega
    | some k =>
      simp only [hE]
      obtain ⟨hk, hj0, hq0, hafter⟩ := findLast_some_spec hE
      simp only [Bool.and_eq_true, bne_iff_ne, ne_eq, decide_eq_true_eq]
      constructor
      · intro ⟨_, hlt⟩
        refine ⟨n, hn, hpn, ?_, ?_⟩
        · intro j hj hltj
          exact hbefore j hltj
        · intro j hj hq
          by_cases hcmp : w.morphs.length - 1 - k < j
          · rw [hafter j hj hcmp] at hq
            cases hq
          · omega
      · intro ⟨i, hi, hpi, hbef_i, hexcl⟩
        have hin : i = n := by
          rcases Nat.lt_trichotomy i n with hlt | heq | hgt
          · have := hbefore i hlt
            rw [this] at hpi
            cases hpi
          · exact heq
          · have := hbef_i n hn hgt
            rw [this] at hpn
            cases hpn
        subst hin
        have := hexcl (w.morphs.length - 1 - k) hj0 hq0
        constructor
        · omega
        · omega

/-- Claim C6: a Word of a Sentence appears in Sentence.nouns iff some of its
morphemes is noun-category or tagged with an ETN/XSN-prefixed tag, and the
earliest index of such a morpheme is strictly greater than the latest index
of any morpheme with an XSV/XSA/XSM-prefixed tag (with the -1 sentinel when
no exclusion morpheme exists). -/
theorem sentence_nouns_characterization (s : List WordM) (w : WordM)
    (hw : w ∈ s) :
    w ∈ nounsOf s ↔ nounSpec w := by
  unfold nounsOf
  rw [List.mem_filter]
  constructor
  · exact fun h => (nounCond_iff w).mp h.2
  · exact fun h => ⟨hw, (nounCond_iff w).mpr h⟩

/-- Witness for C6: a nominalized verb 먹음 = 먹/VV + 음/ETN. -/
theorem sentence_nouns_characterization_witness :
    (⟨"먹음", [⟨"먹", "VV"⟩, ⟨"음", "ETN"⟩]⟩ : WordM) ∈
      nounsOf [⟨"먹음", [⟨"먹", "VV"⟩, ⟨"음", "ETN"⟩]⟩] ↔
    nounSpec ⟨"먹음", [⟨"먹", "VV"⟩, ⟨"음", "ETN"⟩]⟩ :=
  sentence_nouns_characterization [⟨"먹음", [⟨"먹", "VV"⟩, ⟨"음", "ETN"⟩]⟩]
    ⟨"먹음", [⟨"먹", "VV"⟩, ⟨"음", "ETN"⟩]⟩ (by decide)

theorem extends_refl (σ : ReconSt) : Extends σ σ :=
  ⟨Nat.le_refl _, fun _ _ h => h, fun _ _ => rfl⟩

theorem extends_trans {σ1 σ2 σ3 : ReconSt} (h1 : Extends σ1 σ2)
    (h2 : Extends σ2 σ3) : Extends σ1 σ3 := by
  refine ⟨Nat.le_trans h1.1 h2.1, ?_, ?_⟩
  · intro m e he
    exact h2.2.1 m e (h1.2.1 m e he)
  · intro e he
    rw [h2.2.2 e (Nat.lt_of_lt_of_le he h1.1), h1.2.2 e he]

theorem pushAll_mem_old (eid : Nat) :
    ∀ (l : List Nat) (ms : Nat → List Nat) (m e : Nat),
      e ∈ ms m → e ∈ pushAll eid ms l m
  | [], _, _, _, he => he
  | x :: rest, ms, m, e, he => by
    unfold pushAll
    apply pushAll_mem_old eid rest
    by_cases hmx : m = x
    · subst hmx
      rw [upd_same]
      exact List.mem_append_left _ he
    · rw [upd_ne _ _ _ _ hmx]
      exact he

theorem pushAll_mem_new (eid : Nat) :
    ∀ (l : List Nat) (ms : Nat → List Nat) (m : Nat),
      m ∈ l → eid ∈ pushAll eid ms l m
  | [], _, _, hm => absurd hm (List.not_mem_nil _)
  | x :: rest, ms, m, hm => by
    unfold pushAll
    rcases List.mem_cons.mp hm with hmx | hmr
    · subst hmx
      apply pushAll_mem_old
      rw [upd_same]
      exact List.mem_append_right _ (List.mem_singleton_self _)
    · exact pushAll_mem_new eid rest _ m hmr

theorem entityMake_ok {σ σ2 : ReconSt} {ne : NEntity} {t : Nat}
    (h : entityMake σ ne = Except.ok (σ2, t)) :
    t = σ.next ∧ σ2.next = σ.next + 1 ∧ σ2.store t = ne.data ∧
    (∀ m ∈ ne.morphs, t ∈ σ2.ms m) ∧ Extends σ σ2 := by
  unfold entityMake at h
  rw [typeCheck_const ne.morphs "Morpheme"] at h
  simp only [Bool.not_true, Bool.false_eq_true, if_false] at h
  cases h
  refine ⟨rfl, rfl, ?_, ?_, ?_, ?_, ?_⟩
  · show upd σ.store σ.next ne.data σ.next = ne.data
    exact upd_same _ _ _
  · intro m hm
    exact pushAll_mem_new σ.next ne.morphs σ.ms m hm
  · exact Nat.le_succ _
  · intro m e he
    exact pushAll_mem_old σ.next ne.morphs σ.ms m e he
  · intro e he
    exact upd_ne _ _ _ _ (Nat.ne_of_lt he)

theorem entitiesPass_spec :
    ∀ (nents : List NEntity) (σ σ1 : ReconSt) (bids : List Nat),
      entitiesPass σ nents = Except.ok (σ1, bids) →
      Extends σ σ1 ∧
      ∀ ne ∈ nents, ∃ a, a < σ1.next ∧ σ1.store a = ne.data ∧
        ∀ m ∈ ne.morphs, a ∈ σ1.ms m
  | [], σ, σ1, bids, h => by
    unfold entitiesPass at h
    cases h
    exact ⟨extends_refl σ, fun ne hne => absurd hne (List.not_mem_nil _)⟩
  | ne0 :: rest, σ, σ1, bids, h => by
    unfold entitiesPass at h
    cases hem : entityMake σ ne0 with
    | error e => rw [hem] at h; cases h
    | ok p =>
      obtain ⟨σa, t⟩ := p
      rw [hem] at h
      dsimp only at h
      cases hrest : entitiesPass σa rest with
      | error e => rw [hrest] at h; cases h
      | ok q =>
        obtain ⟨σb, ids⟩ := q
        rw [hrest] at h
        cases h
        obtain ⟨ht, hnext, hstore, hms, hext⟩ := entityMake_ok hem
        obtain ⟨hext2, hspec⟩ := entitiesPass_spec rest σa σ1 ids hrest
        refine ⟨extends_trans hext hext2, ?_⟩
        intro ne hne
        rcases List.mem_cons.mp hne with hh | hr
        · subst hh
          refine ⟨t, ?_, ?_, ?_⟩
          · have : t < σa.next := by omega
            exact Nat.lt_of_lt_of_le this hext2.1
          · rw [hext2.2.2 t (by omega), hstore]
          · intro m hm
            exact hext2.2.1 m t (hms m hm)
        · exact hspec ne hr

theorem corefEntry_ok {mdata : Nat → Morph} {bids : List Nat}
    {σ σ2 : ReconSt} {ne : NEntity} {b : Nat}
    (h : corefEntry mdata bids σ ne = Except.ok (σ2, b)) :
    Extends σ σ2 ∧ σ2.next = σ.next + 1 ∧ σ2.store σ.next = ne.data ∧
    ∀ m ∈ ne.morphs, σ.next ∈ σ2.ms m := by
  unfold corefEntry at h
  cases hem : entityMake σ ne with
  | error e => rw [hem] at h; cases h
  | ok p =>
    obtain ⟨σa, t⟩ := p
    rw [hem] at h
    dsimp only at h
    obtain ⟨ht, hnext, hstore, hms, hext⟩ := entityMake_ok hem
    subst ht
    cases hf : bids.find?
        (fun c => entityEq mdata (σa.store c) (σa.store σ.next)) with
    | none => rw [hf] at h; cases h
    | some c =>
      rw [hf] at h
      cases h
      exact ⟨hext, hnext, hstore, hms⟩

theorem corefMembers_spec {mdata : Nat → Morph} {bids : List Nat} :
    ∀ (g : List NEntity) (σ σ2 : ReconSt) (bs : List Nat),
      corefMembers mdata bids σ g = Except.ok (σ2, bs) →
      Extends σ σ2 ∧
      ∀ ne ∈ g, ∃ t, σ.next ≤ t ∧ t < σ2.next ∧ σ2.store t = ne.data ∧
        ∀ m ∈ ne.morphs, t ∈ σ2.ms m
  | [], σ, σ2, bs, h => by
    unfold corefMembers at h
    cases h
    exact ⟨extends_refl σ, fun ne hne => absurd hne (List.not_mem_nil _)⟩
  | ne0 :: rest, σ, σ2, bs, h => by
    unfold corefMembers at h
    cases hce : corefEntry mdata bids σ ne0 with
    | error e => rw [hce] at h; cases h
    | ok p =>
      obtain ⟨σa, b⟩ := p
      rw [hce] at h
      dsimp only at h
      cases hrest : corefMembers mdata bids σa rest with
      | error e => rw [hrest] at h; cases h
      | ok q =>
        obtain ⟨σb, cs⟩ := q
        rw [hrest] at h
        cases h
        obtain ⟨hext, hnext, hstore, hms⟩ := corefEntry_ok hce
        obtain ⟨hext2, hspec⟩ := corefMembers_spec rest σa σ2 cs hrest
        refine ⟨extends_trans hext hext2, ?_⟩
        intro ne hne
        rcases List.mem_cons.mp hne with hh | hr
        · subst hh
          refine ⟨σ.next, Nat.le_refl _, ?_, ?_, ?_⟩
          · have : σ.next < σa.next := by omega
            exact Nat.lt_of_lt_of_le this hext2.1
          · rw [hext2.2.2 σ.next (by omega), hstore]
          · intro m hm
            exact hext2.2.1 m σ.next (hms m hm)
        · obtain ⟨t, h1, h2, h3, h4⟩ := hspec ne hr
          exact ⟨t, by omega, h2, h3, h4⟩

theorem setCorefGroups_preserves {gid : Nat} :
    ∀ (es : List Nat) (σ σ2 : ReconSt),
      setCorefGroups gid σ es = Except.ok σ2 →
      σ2.ms = σ.ms ∧ σ2.store = σ.store ∧ σ2.next = σ.next
  | [], σ, σ2, h => by
    unfold setCorefGroups at h
    cases h
    exact ⟨rfl, rfl, rfl⟩
  | e0 :: rest, σ, σ2, h => by
    unfold setCorefGroups at h
    cases hw : woSet (σ.cg e0) gid with
    | error p => rw [hw] at h; cases h
    | ok v =>
      rw [hw] at h
      dsimp only at h
      obtain ⟨h1, h2, h3⟩ :=
        setCorefGroups_preserves rest { σ with cg := upd σ.cg e0 v } σ2 h
      exact ⟨h1, h2, h3⟩

theorem corefPass_spec {mdata : Nat → Morph} {bids : List Nat} :
    ∀ (groups : List (List NEntity)) (σ : ReconSt) (gid : Nat)
      (σF : ReconSt),
      corefPass mdata bids σ gid groups = Except.ok σF →
      Extends σ σF ∧
      ∀ g ∈ groups, ∀ ne ∈ g, ∃ t, σ.next ≤ t ∧ σF.store t = ne.data ∧
        ∀ m ∈ ne.morphs, t ∈ σF.ms m
  | [], σ, gid, σF, h => by
    unfold corefPass at h
    cases h
    exact ⟨extends_refl σ, fun g hg => absurd hg (List.not_mem_nil _)⟩
  | g0 :: rest, σ, gid, σF, h => by
    unfold corefPass at h
    cases hcm : corefMembers mdata bids σ g0 with
    | error e => rw [hcm] at h; cases h
    | ok p =>
      obtain ⟨σa, members⟩ := p
      rw [hcm] at h
      dsimp only at h
      cases hsg : setCorefGroups gid σa members with
      | error e => rw [hsg] at h; cases h
      | ok σb =>
        rw [hsg] at h
        obtain ⟨hextm, hspecm⟩ := corefMembers_spec g0 σ σa members hcm
        obtain ⟨hms, hstore, hnext⟩ := setCorefGroups_preserves members σa σb hsg
        have hextb : Extends σa σb := by
          refine ⟨by omega, ?_, ?_⟩
          · intro m e he
            rw [hms]
            exact he
          · intro e _
            rw [hstore]
        obtain ⟨hextr, hspecr⟩ := corefPass_spec rest σb (gid + 1) σF h
        refine ⟨extends_trans hextm (extends_trans hextb hextr), ?_⟩
        intro g hg ne hne
        rcases List.mem_cons.mp hg with hh | hr
        · subst hh
          obtain ⟨t, h1, h2, h3, h4⟩ := hspecm ne hne
          refine ⟨t, h1, ?_, ?_⟩
          · have hlt : t < σb.next := by omega
            rw [hextr.2.2 t hlt]
            rw [congrFun hstore t]
            exact h3
          · intro m hm
            apply hextr.2.1
            rw [hms]
            exact h4 m hm
        · obtain ⟨t, h1, h2, h3⟩ := hspecr g hr ne hne
          refine ⟨t, ?_, h2, h3⟩
          have : σ.next ≤ σa.next := hextm.1
          omega

theorem dedup_foldl_mem_old :
    ∀ (es res : List Nat) (e : Nat), e ∈ res →
      e ∈ es.foldl (fun r x => if r.contains x then r else r ++ [x]) res
  | [], _, _, he => he
  | x :: rest, res, e, he => by
    rw [List.foldl_cons]
    apply dedup_foldl_mem_old rest
    by_cases hc : res.contains x
    · simp only [hc, if_true]
      exact he
    · simp only [hc, if_false]
      exact List.mem_append_left _ he

theorem dedup_foldl_mem_new :
    ∀ (es res : List Nat) (e : Nat), e ∈ es →
      e ∈ es.foldl (fun r x => if r.contains x then r else r ++ [x]) res
  | [], _, _, he => absurd he (List.not_mem_nil _)
  | x :: rest, res, e, he => by
    rw [List.foldl_cons]
    rcases List.mem_cons.mp he with hh | hr
    · subst hh
      apply dedup_foldl_mem_old
      by_cases hc : res.contains e
      · simp only [hc, if_true]
        simpa using hc
      · simp only [hc, if_false]
        exact List.mem_append_right _ (List.mem_singleton_self _)
    · exact dedup_foldl_mem_new rest _ e hr

theorem dedup_foldl_nodup :
    ∀ (es res : List Nat), res.Nodup →
      (es.foldl (fun r x => if r.contains x then r else r ++ [x]) res).Nodup
  | [], _, h => h
  | x :: rest, res, h => by
    rw [List.foldl_cons]
    apply dedup_foldl_nodup rest
    by_cases hc : res.contains x
    · simp only [hc, if_true]
      exact h
    · simp only [hc, if_false]
      have hx : x ∉ res := by simpa using hc
      simp [List.nodup_append, h, hx]

theorem wordEntities_mem_acc {ms : Nat → List Nat} :
    ∀ (wmorphs acc : List Nat) (e : Nat), e ∈ acc →
      e ∈ wmorphs.foldl (fun acc m => (ms m).foldl
        (fun res e => if res.contains e then res else res ++ [e]) acc) acc
  | [], _, _, he => he
  | w :: rest, acc, e, he => by
    rw [List.foldl_cons]
    exact wordEntities_mem_acc rest _ e (dedup_foldl_mem_old (ms w) acc e he)

theorem wordEntities_mem_go {ms : Nat → List Nat} :
    ∀ (wmorphs acc : List Nat) (m e : Nat), m ∈ wmorphs → e ∈ ms m →
      e ∈ wmorphs.foldl (fun acc m => (ms m).foldl
        (fun res e => if res.contains e then res else res ++ [e]) acc) acc
  | [], _, _, _, hm, _ => absurd hm (List.not_mem_nil _)
  | w :: rest, acc, m, e, hm, he => by
    rw [List.foldl_cons]
    rcases List.mem_cons.mp hm with hh | hr
    · subst hh
      exact wordEntities_mem_acc rest _ e (dedup_foldl_mem_new (ms m) acc e he)
    · exact wordEntities_mem_go rest _ m e hr he

/-- A word reports every entity referenced by one of its morphemes. -/
theorem mem_wordEntities {ms : Nat → List Nat} {wmorphs : List Nat}
    {m e : Nat} (hm : m ∈ wmorphs) (he : e ∈ ms m) :
    e ∈ wordEntities ms wmorphs := by
  unfold wordEntities
  exact wordEntities_mem_go wmorphs [] m e hm he

theorem morphEq_refl (mdata : Nat → Morph) (a : Nat) :
    morphEq mdata a a = true := by
  simp [morphEq]

theorem zip_self_all (mdata : Nat → Morph) :
    ∀ l : List Nat, ((l.zip l).all fun p => morphEq mdata p.1 p.2) = true
  | [] => rfl
  | a :: rest => by
    simp only [List.zip_cons_cons, List.all_cons, morphEq_refl,
      Bool.true_and]
    exact zip_self_all mdata rest

/-- Entity.equals is reflexive on the stored value. -/
theorem entityEq_refl (mdata : Nat → Morph) (x : EData) :
    entityEq mdata x x = true := by
  simp [entityEq, zip_self_all]

/-- A list with two distinct members has at least two elements. -/
theorem two_le_length_of_two_mem {α : Type} {l : List α} {i j : α}
    (hi : i ∈ l) (hj : j ∈ l) (hne : i ≠ j) : 2 ≤ l.length := by
  cases l with
  | nil => cases hi
  | cons a rest =>
    cases rest with
    | nil =>
      rw [List.mem_singleton] at hi hj
      exact absurd (hi.trans hj.symm) hne
    | cons b rest2 =>
      simp only [List.length_cons]
      omega

/-- Claim C10: reconstructing coreference groups routes each native member
through a fresh throwaway Entity whose constructor pushes itself onto every
covered morpheme, so after a successful reconstruction every morpheme
covered by a coref-referenced entity (that also occurs in the native entity
list) holds two distinct but value-equal Entity objects in its entities
array, and Word.entities — which de-duplicates by reference only — reports
that entity more than once for any word containing such a morpheme. -/
theorem coref_reconstruction_duplicates_entities (mdata : Nat → Morph)
    (nents : List NEntity) (groups : List (List NEntity))
    (g : List NEntity) (ne : NEntity) (m : Nat) (wmorphs : List Nat)
    (σF : ReconSt) (hg : g ∈ groups) (hne : ne ∈ g) (hnat : ne ∈ nents)
    (hm : m ∈ ne.morphs) (hwm : m ∈ wmorphs)
    (hok : reconstructEC mdata nents groups = Except.ok σF) :
    ∃ i j : Nat, i ≠ j ∧ i ∈ σF.ms m ∧ j ∈ σF.ms m ∧
      σF.store i = ne.data ∧ σF.store j = ne.data ∧
      entityEq mdata (σF.store i) (σF.store j) = true ∧
      2 ≤ ((wordEntities σF.ms wmorphs).filter
        (fun e => entityEq mdata (σF.store e) ne.data)).length := by
  unfold reconstructEC at hok
  cases hep : entitiesPass recon0 nents with
  | error e => rw [hep] at hok; cases hok
  | ok p =>
    obtain ⟨σ1, bids⟩ := p
    rw [hep] at hok
    dsimp only at hok
    obtain ⟨_, hspec1⟩ := entitiesPass_spec nents recon0 σ1 bids hep
    obtain ⟨a, ha_lt, ha_store, ha_ms⟩ := hspec1 ne hnat
    obtain ⟨hext2, hspec2⟩ := corefPass_spec groups σ1 0 σF hok
    obtain ⟨t, ht_ge, ht_store, ht_ms⟩ := hspec2 g hg ne hne
    have hne_at : a ≠ t := by omega
    have ha_msF : a ∈ σF.ms m := hext2.2.1 m a (ha_ms m hm)
    have ha_storeF : σF.store a = ne.data := by
      rw [hext2.2.2 a ha_lt]
      exact ha_store
    have ht_msF : t ∈ σF.ms m := ht_ms m hm
    have hfa : a ∈ (wordEntities σF.ms wmorphs).filter
        (fun e => entityEq mdata (σF.store e) ne.data) := by
      refine List.mem_filter.mpr ⟨mem_wordEntities hwm ha_msF, ?_⟩
      rw [ha_storeF]
      exact entityEq_refl mdata ne.data
    have hft : t ∈ (wordEntities σF.ms wmorphs).filter
        (fun e => entityEq mdata (σF.store e) ne.data) := by
      refine List.mem_filter.mpr ⟨mem_wordEntities hwm ht_msF, ?_⟩
      rw [ht_store]
      exact entityEq_refl mdata ne.data
    refine ⟨a, t, hne_at, ha_msF, ht_msF, ha_storeF, ht_store, ?_, ?_⟩
    · rw [ha_storeF, ht_store]
      exact entityEq_refl mdata ne.data
    · exact two_le_length_of_two_mem hfa hft hne_at

/-- Witness for C10: one entity over one morpheme, referenced by one
coreference group. -/
theorem coref_reconstruction_duplicates_entities_witness :
    ∃ i j : Nat, i ≠ j ∧
      i ∈ (exceptGetD (reconstructEC (fun _ => ⟨"트럼프", "NNP"⟩)
        [⟨"트럼프", "PS", "PS_OTHER", [0]⟩]
        [[⟨"트럼프", "PS", "PS_OTHER", [0]⟩]]) recon0).ms 0 ∧
      j ∈ (exceptGetD (reconstructEC (fun _ => ⟨"트럼프", "NNP"⟩)
        [⟨"트럼프", "PS", "PS_OTHER", [0]⟩]
        [[⟨"트럼프", "PS", "PS_OTHER", [0]⟩]]) recon0).ms 0 ∧
      (exceptGetD (reconstructEC (fun _ => ⟨"트럼프", "NNP"⟩)
        [⟨"트럼프", "PS", "PS_OTHER", [0]⟩]
        [[⟨"트럼프", "PS", "PS_OTHER", [0]⟩]]) recon0).store i
        = NEntity.data ⟨"트럼프", "PS", "PS_OTHER", [0]⟩ ∧
      (exceptGetD (reconstructEC (fun _ => ⟨"트럼프", "NNP"⟩)
        [⟨"트럼프", "PS", "PS_OTHER", [0]⟩]
        [[⟨"트럼프", "PS", "PS_OTHER", [0]⟩]]) recon0).store j
        = NEntity.data ⟨"트럼프", "PS", "PS_OTHER", [0]⟩ ∧
      entityEq (fun _ => ⟨"트럼프", "NNP"⟩)
        ((exceptGetD (reconstructEC (fun _ => ⟨"트럼프", "NNP"⟩)
          [⟨"트럼프", "PS", "PS_OTHER", [0]⟩]
          [[⟨"트럼프", "PS", "PS_OTHER", [0]⟩]]) recon0).store i)
        ((exceptGetD (reconstructEC (fun _ => ⟨"트럼프", "NNP"⟩)
          [⟨"트럼프", "PS", "PS_OTHER", [0]⟩]
          [[⟨"트럼프", "PS", "PS_OTHER", [0]⟩]]) recon0).store j) = true ∧
      2 ≤ ((wordEntities (exceptGetD (reconstructEC
          (fun _ => ⟨"트럼프", "NNP"⟩)
          [⟨"트럼프", "PS", "PS_OTHER", [0]⟩]
          [[⟨"트럼프", "PS", "PS_OTHER", [0]⟩]]) recon0).ms [0]).filter
        (fun e => entityEq (fun _ => ⟨"트럼프", "NNP"⟩)
          ((exceptGetD (reconstructEC (fun _ => ⟨"트럼프", "NNP"⟩)
            [⟨"트럼프", "PS", "PS_OTHER", [0]⟩]
            [[⟨"트럼프", "PS", "PS_OTHER", [0]⟩]]) recon0).store e)
          (NEntity.data ⟨"트럼프", "PS", "PS_OTHER", [0]⟩))).length :=
  coref_reconstruction_duplicates_entities (fun _ => ⟨"트럼프", "NNP"⟩)
    [⟨"트럼프", "PS", "PS_OTHER", [0]⟩]
    [[⟨"트럼프", "PS", "PS_OTHER", [0]⟩]]
    [⟨"트럼프", "PS", "PS_OTHER", [0]⟩] ⟨"트럼프", "PS", "PS_OTHER", [0]⟩
    0 [0] _ (by decide) (by decide) (by decide) (by decide) (by decide) rfl

end NodejsSupport
